import Mathlib

/-!
Shallow embedding of the fastaqc classification pipeline
(`src/fastaqc/alphabet.py` and `src/fastaqc/main.py`).

Characters are Lean `Char`s; Python's `str.upper()` / `str.lower()` are
modelled by their ASCII case mapping (FASTA sequence data is ASCII).
Python dictionaries are modelled as insertion-ordered association lists:
assignment to an existing key replaces its value in place, assignment to a
fresh key appends, deletion filters — exactly Python's observable dict
behaviour.  Arithmetic on the `remaining` counter of `contains_only` is done
in `Int`, as Python integers can go negative there.
-/

/-- ASCII upper-casing of a single character, as Python's `str.upper` acts on
ASCII input: maps a-z to A-Z and leaves every other character unchanged. -/
def upper_char (c : Char) : Char :=
  if 97 ≤ c.toNat ∧ c.toNat ≤ 122 then Char.ofNat (c.toNat - 32) else c

/-- ASCII lower-casing of a single character: maps A-Z to a-z and leaves
every other character unchanged. -/
def lower_char (c : Char) : Char :=
  if 65 ≤ c.toNat ∧ c.toNat ≤ 90 then Char.ofNat (c.toNat + 32) else c

/-- A sequence record's raw character sequence (`record.seq`). -/
abbrev Rec : Type := List Char

/-- `record.seq.upper()`. -/
def upperSeq (r : Rec) : List Char :=
  (r : List Char).map upper_char

/-- An alphabet class, as built by `Alphabet.__init__` in
`src/fastaqc/alphabet.py`: three character lists plus the enum member name. -/
structure Alphabet where
  name : String
  unambiguous_chars : List Char
  ambiguous_chars : List Char
  special_chars : List Char
deriving DecidableEq, Repr

/-- `self.all_chars = unambiguous_chars + ambiguous_chars + special_chars`. -/
def Alphabet.all_chars (a : Alphabet) : List Char :=
  a.unambiguous_chars ++ a.ambiguous_chars ++ a.special_chars

def dna_unamb_chars : List Char := ['A', 'T', 'G', 'C']

def rna_unamb_chars : List Char := ['A', 'U', 'G', 'C']

def aa_unamb_chars : List Char :=
  ['A', 'C', 'D', 'E', 'F', 'G', 'H', 'I', 'K', 'L', 'M', 'N', 'P', 'Q', 'R',
   'S', 'T', 'V', 'W', 'Y']

def aa_nc_unamb_chars : List Char :=
  ['A', 'C', 'D', 'E', 'F', 'G', 'H', 'I', 'K', 'L', 'M', 'N', 'P', 'Q', 'R',
   'S', 'T', 'V', 'W', 'Y', 'O', 'U']

def dna_amb_chars : List Char :=
  ['N', 'R', 'Y', 'S', 'W', 'K', 'M', 'B', 'D', 'H', 'V']

/-- In the source, `_rna_amb_chars = _dna_unamb_chars` (alphabet.py line 9). -/
def rna_amb_chars : List Char := dna_unamb_chars

def aa_amb_chars : List Char := ['X', 'B', 'Z', 'J']

def dna_special_chars : List Char := ['-']

def rna_special_chars : List Char := dna_special_chars

def aa_special_chars : List Char := ['*', '-']

def Alphabet.DNA : Alphabet :=
  ⟨"DNA", dna_unamb_chars, dna_amb_chars, dna_special_chars⟩

def Alphabet.RNA : Alphabet :=
  ⟨"RNA", rna_unamb_chars, rna_amb_chars, rna_special_chars⟩

def Alphabet.AA : Alphabet :=
  ⟨"AA", aa_unamb_chars, aa_amb_chars, aa_special_chars⟩

def Alphabet.AA_NC : Alphabet :=
  ⟨"AA_NC", aa_nc_unamb_chars, aa_amb_chars, aa_special_chars⟩

/-- `Alphabet.OTHER`: the unambiguous section is
`list(set(_dna_unamb_chars + _rna_unamb_chars + _aa_unamb_chars +
_dna_amb_chars + _rna_amb_chars))`; a Python set has no duplicates, modelled
by `List.dedup` (order inside the list is irrelevant to every use, as the
deduplicated list is duplicate-free). -/
def Alphabet.OTHER : Alphabet :=
  ⟨"OTHER",
   (dna_unamb_chars ++ rna_unamb_chars ++ aa_unamb_chars ++ dna_amb_chars ++
     rna_amb_chars).dedup,
   aa_amb_chars,
   (dna_special_chars ++ rna_special_chars ++ aa_special_chars).dedup⟩

/-- A character-frequency distribution: a Python dict from characters to
counts, in insertion order. -/
abbrev CharDist : Type := List (Char × Nat)

/-- One step of `compute_character_distribution`'s loop body:
`if c not in distribution: distribution[c] = 0; distribution[c] += 1`. -/
def distAdd (d : CharDist) (c : Char) : CharDist :=
  if (d.lookup c).isSome then
    d.map (fun p => if p.1 = c then (p.1, p.2 + 1) else p)
  else d ++ [(c, 1)]

/-- The character→occurrence-count dict built from an (already upper-cased)
character list. -/
def distOf (chars : List Char) : CharDist :=
  chars.foldl distAdd ([] : CharDist)

/-- `contains(dist, characters)` from main.py: true as soon as some entry of
`characters` is a key of `dist`. -/
def contains (dist : CharDist) (characters : List Char) : Bool :=
  characters.any (fun c => (dist.lookup c).isSome)

/-- `contains_only(dist, characters)` from main.py: starts `remaining` at
`len(dist)`, decrements once for every entry of `characters` (duplicates
included) that is a key of `dist`, and answers `remaining == 0`. -/
def contains_only (dist : CharDist) (characters : List Char) : Bool :=
  let remaining : Int :=
    (List.length dist : Int) -
      ((characters.filter (fun c => (dist.lookup c).isSome)).length : Int)
  remaining == 0

/-- The per-character position lists built by `compute_character_positions`:
a dict from characters to ordered index lists. -/
abbrev CharPositions : Type := List (Char × List Nat)

/-- One step of `compute_character_positions`' loop body. -/
def positionsAdd (p : CharPositions) (ic : Nat × Char) : CharPositions :=
  if (p.lookup ic.2).isSome then
    p.map (fun q => if q.1 = ic.2 then (q.1, q.2 ++ [ic.1]) else q)
  else p ++ [(ic.2, [ic.1])]

/-- The char→index-list dict built from an (already upper-cased) character
list, indices from `enumerate`. -/
def positionsOf (chars : List Char) : CharPositions :=
  chars.enum.foldl positionsAdd ([] : CharPositions)

/-- The flag set built by `detect_ambiguous_and_special_characters`: a Python
set over the three possible flag strings, modelled by which of the three are
present. -/
structure Flags where
  unambiguous : Bool
  ambiguous : Bool
  special : Bool
deriving DecidableEq, Repr

/-- Python's `",".join(sorted(flags))` for a subset of
{"unambiguous", "ambiguous", "special"}: lexicographically
"ambiguous" < "special" < "unambiguous". -/
def Flags.sortedJoin (f : Flags) : String :=
  String.intercalate ","
    ((if f.ambiguous then ["ambiguous"] else []) ++
     (if f.special then ["special"] else []) ++
     (if f.unambiguous then ["unambiguous"] else []))

/-- The values a stats-dictionary entry can hold over a pipeline run. -/
inductive Value where
  | nat : Nat → Value
  | str : String → Value
  | dist : CharDist → Value
  | positions : CharPositions → Value
  | alpha : Alphabet → Value
  | flags : Flags → Value
  | natList : List Nat → Value
  | counts : List (String × Nat) → Value
  | nested : List (String × CharDist) → Value
deriving DecidableEq, Repr

/-- The stats dictionary: string-keyed, insertion-ordered. -/
abbrev Stats : Type := List (String × Value)

/-- Python dict assignment `stats[k] = v`: replaces in place when the key is
present, appends otherwise. -/
def setKey (s : Stats) (k : String) (v : Value) : Stats :=
  if (s.lookup k).isSome then
    s.map (fun kv => if kv.1 = k then (kv.1, v) else kv)
  else s ++ [(k, v)]

/-- Python `stats[k]` / `k in stats`. -/
def getKey (s : Stats) (k : String) : Option Value :=
  s.lookup k

/-- A check: record plus stats dictionary to an updated stats dictionary, or
an uncaught Python exception (a failed `assert`, or an operation on a value
of the wrong type). -/
abbrev Check : Type := Rec → Stats → Except String Stats

/-- `assert_character_distribution_available`. -/
def assert_character_distribution_available (stats : Stats) :
    Except String CharDist :=
  match getKey stats "_character_distribution" with
  | some (Value.dist d) => Except.ok d
  | some _ => Except.error "type error"
  | none => Except.error
      "Sequence character distribution not availabe. It must be computed before this check."

/-- `assert_sequence_type_available`. -/
def assert_sequence_type_available (stats : Stats) : Except String Alphabet :=
  match getKey stats "_type" with
  | some (Value.alpha a) => Except.ok a
  | some _ => Except.error "type error"
  | none => Except.error
      "Sequence type information not availabe. It must be computed before this check."

/-- `assert_sequence_type_flags_available`. -/
def assert_sequence_type_flags_available (stats : Stats) : Except String Flags :=
  match getKey stats "_type_flags" with
  | some (Value.flags f) => Except.ok f
  | some _ => Except.error "type error"
  | none => Except.error
      "Sequence type flag information not availabe. It must be computed before this check."

/-- `assert_sequence_category_name_available`. -/
def assert_sequence_category_name_available (stats : Stats) :
    Except String String :=
  match getKey stats "_category_name" with
  | some (Value.str n) => Except.ok n
  | some _ => Except.error "type error"
  | none => Except.error
      "Sequence category_name information not availabe. It must be computed before this check."

/-- `count`: lazily initialises `stats['sequences']` and increments it. -/
def count : Check := fun _ stats =>
  match getKey stats "sequences" with
  | none => Except.ok (setKey stats "sequences" (Value.nat 1))
  | some (Value.nat n) => Except.ok (setKey stats "sequences" (Value.nat (n + 1)))
  | some _ => Except.error "type error"

/-- `compute_character_distribution`. -/
def compute_character_distribution : Check := fun record stats =>
  Except.ok (setKey stats "_character_distribution" (Value.dist (distOf (upperSeq record))))

/-- `compute_character_positions`. -/
def compute_character_positions : Check := fun record stats =>
  Except.ok (setKey stats "_character_positions" (Value.positions (positionsOf (upperSeq record))))

/-- `detect_sequence_type`: fixed precedence DNA, RNA, AA, else OTHER. -/
def detect_sequence_type : Check := fun _ stats => do
  let c_dist ← assert_character_distribution_available stats
  if contains_only c_dist Alphabet.DNA.all_chars then
    Except.ok (setKey stats "_type" (Value.alpha Alphabet.DNA))
  else if contains_only c_dist Alphabet.RNA.all_chars then
    Except.ok (setKey stats "_type" (Value.alpha Alphabet.RNA))
  else if contains_only c_dist Alphabet.AA.all_chars then
    Except.ok (setKey stats "_type" (Value.alpha Alphabet.AA))
  else
    Except.ok (setKey stats "_type" (Value.alpha Alphabet.OTHER))

/-- `detect_ambiguous_and_special_characters`. -/
def detect_ambiguous_and_special_characters : Check := fun _ stats => do
  let c_dist ← assert_character_distribution_available stats
  let alphabet ← assert_sequence_type_available stats
  let type_flags : Flags :=
    if contains_only c_dist alphabet.unambiguous_chars then
      ⟨true, false, false⟩
    else
      ⟨false, contains c_dist alphabet.ambiguous_chars,
        contains c_dist alphabet.special_chars⟩
  Except.ok (setKey stats "_type_flags" (Value.flags type_flags))

/-- `set_sequence_category_name`: `"{} ({})".format(alphabet.name, ",".join(sorted(flags)))`. -/
def set_sequence_category_name : Check := fun _ stats => do
  let alphabet ← assert_sequence_type_available stats
  let flags ← assert_sequence_type_flags_available stats
  let name := alphabet.name ++ " (" ++ flags.sortedJoin ++ ")"
  Except.ok (setKey stats "_category_name" (Value.str name))

/-- `count_sequence_types`: increments `type_counts[category_name]`. -/
def count_sequence_types : Check := fun _ stats => do
  let _ ← assert_sequence_type_available stats
  let _ ← assert_sequence_type_flags_available stats
  let ty ← assert_sequence_category_name_available stats
  let m ← (match getKey stats "type_counts" with
    | none => Except.ok ([] : List (String × Nat))
    | some (Value.counts m) => Except.ok m
    | some _ => Except.error "type error")
  let prev := match m.lookup ty with
    | some n => n
    | none => 0
  let m := if (m.lookup ty).isSome then
      m.map (fun kv => if kv.1 = ty then (kv.1, prev + 1) else kv)
    else m ++ [(ty, prev + 1)]
  Except.ok (setKey stats "type_counts" (Value.counts m))

/-- The inner loop of `_count`: for each `c` in `chars` that is a key of
`c_dist`, lazily initialise and increment `counts[c]` (the per-character
initialise-and-increment is the same dict pattern as `distAdd`). -/
def tallyChars (c_dist : CharDist) (counts : CharDist) (chars : List Char) : CharDist :=
  chars.foldl (fun m c => if (c_dist.lookup c).isSome then distAdd m c else m) counts

/-- `_count(stats, fieldname, chars)`: lazily creates the nested
`stats[fieldname][category_name]` dict and tallies `chars` into it. -/
def countHelper (stats : Stats) (fieldname : String) (chars : List Char) :
    Except String Stats := do
  let category_name ← assert_sequence_category_name_available stats
  let c_dist ← assert_character_distribution_available stats
  let outer ← (match getKey stats fieldname with
    | none => Except.ok ([] : List (String × CharDist))
    | some (Value.nested m) => Except.ok m
    | some _ => Except.error "type error")
  let inner := match outer.lookup category_name with
    | some m => m
    | none => ([] : CharDist)
  let newInner := tallyChars c_dist inner chars
  let newOuter := if (outer.lookup category_name).isSome then
      outer.map (fun kv => if kv.1 = category_name then (kv.1, newInner) else kv)
    else outer ++ [(category_name, newInner)]
  Except.ok (setKey stats fieldname (Value.nested newOuter))

/-- `count_sequences_with_special_characters`. -/
def count_sequences_with_special_characters : Check := fun _ stats => do
  let alphabet ← assert_sequence_type_available stats
  countHelper stats "special_char_count" alphabet.special_chars

/-- `count_sequences_with_ambiguous_characters`. -/
def count_sequences_with_ambiguous_characters : Check := fun _ stats => do
  let alphabet ← assert_sequence_type_available stats
  countHelper stats "ambiguous_char_count" alphabet.ambiguous_chars

/-- `count_sequences_with_unknown_characters`: tallies every distinct
character of the distribution that is outside `alphabet.all_chars`. -/
def count_sequences_with_unknown_characters : Check := fun _ stats => do
  let category_name ← assert_sequence_category_name_available stats
  let alphabet ← assert_sequence_type_available stats
  let c_dist ← assert_character_distribution_available stats
  let outer ← (match getKey stats "unknown_char_count" with
    | none => Except.ok ([] : List (String × CharDist))
    | some (Value.nested m) => Except.ok m
    | some _ => Except.error "type error")
  let inner := match outer.lookup category_name with
    | some m => m
    | none => ([] : CharDist)
  let newInner := (c_dist.map Prod.fst).foldl
    (fun m c => if alphabet.all_chars.contains c then m else distAdd m c) inner
  let newOuter := if (outer.lookup category_name).isSome then
      outer.map (fun kv => if kv.1 = category_name then (kv.1, newInner) else kv)
    else outer ++ [(category_name, newInner)]
  Except.ok (setKey stats "unknown_char_count" (Value.nested newOuter))

/-- Python's `k.startswith('_')`: the key's first character is the
underscore marker. -/
def startsWithUnderscore (s : String) : Bool :=
  match s.data with
  | c :: _ => c = '_'
  | [] => false

/-- `clear_tempary_fields`: deletes every key starting with the underscore
marker; collect-then-delete preserves the order of the surviving entries,
i.e. it is a filter. -/
def clear_tempary_fields : Check := fun _ stats =>
  Except.ok (stats.filter (fun kv => !(startsWithUnderscore kv.1)))

/-- The `checks` list of `info`, in source order. -/
def checks : List Check :=
  [count,
   compute_character_distribution,
   compute_character_positions,
   detect_sequence_type,
   detect_ambiguous_and_special_characters,
   set_sequence_category_name,
   count_sequence_types,
   count_sequences_with_special_characters,
   count_sequences_with_ambiguous_characters,
   count_sequences_with_unknown_characters,
   clear_tempary_fields]

/-- Runs a list of checks left to right on one record, stopping at the first
uncaught exception. -/
def applyChecks (cs : List Check) (record : Rec) (stats : Stats) :
    Except String Stats :=
  cs.foldlM (fun s c => c record s) stats

/-- The full check chain of `info` applied to one record. -/
def processRecord (record : Rec) (stats : Stats) : Except String Stats :=
  applyChecks checks record stats

/-- The fresh per-file accumulator: `stats = {'filename': filename}`. -/
def initStats (filename : String) : Stats :=
  [("filename", Value.str filename)]

/-- `info`'s per-file loop: fold the full check chain over the file's
records, starting from the fresh accumulator. -/
def processFile (filename : String) (records : List Rec) :
    Except String Stats :=
  records.foldlM (fun s record => processRecord record s) (initStats filename)

/-- Modelled from the spec: the "Collect length" check (spec section 4.2 step 2,
"appends `length(sequence)` to `lengths`") has no counterpart in the `checks`
list of `src/fastaqc/main.py`; the repository code holding it is not under
`src/`. It lazily initialises the reportable `lengths` field and appends the
record's sequence length. -/
def collect_length : Check := fun record stats =>
  match getKey stats "lengths" with
  | none => Except.ok (setKey stats "lengths" (Value.natList [record.length]))
  | some (Value.natList l) =>
      Except.ok (setKey stats "lengths" (Value.natList (l ++ [record.length])))
  | some _ => Except.error "type error"

/-- Modelled from the spec: the check chain with the "Collect length" step in
its spec position, directly after "Count" (spec section 4.2). -/
def checksWithLength : List Check :=
  [count,
   collect_length,
   compute_character_distribution,
   compute_character_positions,
   detect_sequence_type,
   detect_ambiguous_and_special_characters,
   set_sequence_category_name,
   count_sequence_types,
   count_sequences_with_special_characters,
   count_sequences_with_ambiguous_characters,
   count_sequences_with_unknown_characters,
   clear_tempary_fields]

/-- Modelled from the spec: the per-file loop running the chain that includes
the "Collect length" step. -/
def processFileWithLength (filename : String) (records : List Rec) :
    Except String Stats :=
  records.foldlM (fun s record => applyChecks checksWithLength record s)
    (initStats filename)

/-- The `lengths` field read off an accumulator (empty when absent). -/
def lengthsOf (stats : Stats) : List Nat :=
  match getKey stats "lengths" with
  | some (Value.natList l) => l
  | _ => []

/-- No key of the accumulator starts with the temporary-field marker. -/
def noTempFields (stats : Stats) : Bool :=
  stats.all (fun kv => !(startsWithUnderscore kv.1))

/-- The four records of the spec's end-to-end example:
`ACGT`, `ACGU`, `ACGN`, `XYZ*`. -/
def endToEndRecords : List Rec :=
  [['A', 'C', 'G', 'T'], ['A', 'C', 'G', 'U'], ['A', 'C', 'G', 'N'],
   ['X', 'Y', 'Z', '*']]

/-- The final accumulator of a successful run ([] when the run raised). -/
def okStats (x : Except String Stats) : Stats :=
  match x with
  | Except.ok s => s
  | Except.error _ => []

/-- Whether a run completed without an uncaught exception. -/
def okRun (x : Except String Stats) : Bool :=
  match x with
  | Except.ok _ => true
  | Except.error _ => false

/-- The `type_counts` mapping read off an accumulator (empty when absent). -/
def typeCountsOf (stats : Stats) : List (String × Nat) :=
  match getKey stats "type_counts" with
  | some (Value.counts m) => m
  | _ => []

/-- The end-to-end example exactly as the claim states it: processing the four
records yields `sequences = 4` and `type_counts` holding precisely
DNA (unambiguous), RNA (unambiguous), DNA (ambiguous) and OTHER (ambiguous),
each with count 1. -/
def endToEndClaim : Prop :=
  okRun (processFile "f" endToEndRecords) = true ∧
  getKey (okStats (processFile "f" endToEndRecords)) "sequences" =
    some (Value.nat 4) ∧
  (typeCountsOf (okStats (processFile "f" endToEndRecords))).lookup
    "DNA (unambiguous)" = some 1 ∧
  (typeCountsOf (okStats (processFile "f" endToEndRecords))).lookup
    "RNA (unambiguous)" = some 1 ∧
  (typeCountsOf (okStats (processFile "f" endToEndRecords))).lookup
    "DNA (ambiguous)" = some 1 ∧
  (typeCountsOf (okStats (processFile "f" endToEndRecords))).lookup
    "OTHER (ambiguous)" = some 1 ∧
  (typeCountsOf (okStats (processFile "f" endToEndRecords))).length = 4

/-- The accumulator after the full check chain has run on the first record of
a file, i.e. the state from which the second record would be processed. -/
def afterFirstRecord : Stats :=
  okStats (processRecord ['A', 'C', 'G', 'T'] (initStats "f"))

/-- The claim's reading of the purge step at a concrete input: were the purge
run only once after all records (not per record), the accumulator carried
from the first record to the second of a two-record file would still hold the
transient character-distribution field. -/
def purgeNotPerRecordClaim : Prop :=
  okRun (processRecord ['A', 'C', 'G', 'T'] (initStats "f")) = true ∧
  (getKey afterFirstRecord "_character_distribution").isSome = true

/-- The set the claim says OTHER's unambiguous set equals, stated from the
spec's words for comparison: the union of every other class's unambiguous and
ambiguous character sets. -/
def otherUnambiguousClaimed : List Char :=
  (Alphabet.DNA.unambiguous_chars ++ Alphabet.DNA.ambiguous_chars ++
   Alphabet.RNA.unambiguous_chars ++ Alphabet.RNA.ambiguous_chars ++
   Alphabet.AA.unambiguous_chars ++ Alphabet.AA.ambiguous_chars ++
   Alphabet.AA_NC.unambiguous_chars ++ Alphabet.AA_NC.ambiguous_chars).dedup

/-- The three character sets of one alphabet class are pairwise disjoint. -/
def pairwiseDisjointSets (a : Alphabet) : Prop :=
  (∀ c ∈ a.unambiguous_chars, c ∉ a.ambiguous_chars) ∧
  (∀ c ∈ a.unambiguous_chars, c ∉ a.special_chars) ∧
  (∀ c ∈ a.ambiguous_chars, c ∉ a.special_chars)

/-- The five members of the `Alphabet` enum. -/
def alphabetMembers : List Alphabet :=
  [Alphabet.DNA, Alphabet.RNA, Alphabet.AA, Alphabet.AA_NC, Alphabet.OTHER]

/-- Decomposition of a successful `Except` bind into its two successful stages. -/
theorem except_bind_ok {ε α β : Type} (x : Except ε α) (f : α → Except ε β) (b : β) :
    (x >>= f) = Except.ok b ↔ ∃ a, x = Except.ok a ∧ f a = Except.ok b := by
  cases x <;> simp [Bind.bind, Except.bind]

/-- Round trip of a valid code point through `Char.ofNat`. -/
theorem char_toNat_ofNat {n : Nat} (h : Nat.isValidChar n) :
    (Char.ofNat n).toNat = n := by
  simp [Char.ofNat, h, Char.ofNatAux, Char.toNat, UInt32.toNat, BitVec.toNat_ofNatLt]

/-- Upper-casing absorbs a preceding lower-casing, character by character. -/
theorem upper_lower_char (c : Char) : upper_char (lower_char c) = upper_char c := by
  by_cases h : 65 ≤ c.toNat ∧ c.toNat ≤ 90
  · have hv : Nat.isValidChar (c.toNat + 32) := Or.inl (by omega)
    have ht : (Char.ofNat (c.toNat + 32)).toNat = c.toNat + 32 := char_toNat_ofNat hv
    have h1 : lower_char c = Char.ofNat (c.toNat + 32) := by
      rw [lower_char, if_pos h]
    have h2 : ¬(97 ≤ c.toNat ∧ c.toNat ≤ 122) := by omega
    rw [h1, upper_char, upper_char, if_neg h2, if_pos (by rw [ht]; omega)]
    rw [ht]
    have h3 : c.toNat + 32 - 32 = c.toNat := by omega
    rw [h3, Char.ofNat_toNat]
  · rw [lower_char, if_neg h]

/-- Upper-casing a sequence is unaffected by first lower-casing it. -/
theorem upperSeq_map_lower (r : Rec) :
    upperSeq (r.map lower_char) = upperSeq r := by
  simp only [upperSeq, List.map_map]
  exact List.map_congr_left (fun c _ => upper_lower_char c)


/-- Updating the entries of one key leaves lookups of any other key unchanged. -/
theorem lookup_map_update_ne (s : Stats) (k q : String) (v : Value) (h : q ≠ k) :
    (s.map (fun kv => if kv.1 = k then (kv.1, v) else kv)).lookup q = s.lookup q := by
  induction s with
  | nil => rfl
  | cons a t ih =>
    obtain ⟨a1, a2⟩ := a
    by_cases hak : a1 = k
    · subst hak
      rw [List.map_cons]
      have hhead : (if ((a1 : String), a2).1 = a1 then (((a1 : String), a2).1, v) else (a1, a2)) = (a1, v) := by
        simp
      rw [hhead]
      have hq : (q == a1) = false := by
        simpa using h
      simp [List.lookup, hq, ih]
    · have : (if (a1, a2).1 = k then ((a1, a2).1, v) else (a1, a2)) = (a1, a2) := by
        simp [hak]
      rw [List.map_cons, this]
      cases hq : (q == a1) <;> simp [List.lookup, hq, ih]

/-- Appending an entry for one key leaves lookups of any other key unchanged. -/
theorem lookup_append_single_ne (s : Stats) (k q : String) (v : Value) (h : q ≠ k) :
    (s ++ [(k, v)]).lookup q = s.lookup q := by
  induction s with
  | nil =>
    have hq : (q == k) = false := by simpa using h
    simp [List.lookup, hq]
  | cons a t ih =>
    cases hq : (q == a.1) <;> simp [List.lookup, hq, ih]

/-- A dict assignment to one key leaves lookups of any other key unchanged. -/
theorem lookup_setKey_ne (s : Stats) (k q : String) (v : Value) (h : q ≠ k) :
    (setKey s k v).lookup q = s.lookup q := by
  unfold setKey
  split
  · exact lookup_map_update_ne s k q v h
  · exact lookup_append_single_ne s k q v h

/-- Restatement of `lookup_setKey_ne` through `getKey`. -/
theorem getKey_setKey_ne (s : Stats) (k q : String) (v : Value) (h : q ≠ k) :
    getKey (setKey s k v) q = getKey s q :=
  lookup_setKey_ne s k q v h

/-- A dict assignment is visible to a subsequent lookup of the same key. -/
theorem lookup_setKey_self (s : Stats) (k : String) (v : Value) :
    (setKey s k v).lookup k = some v := by
  unfold setKey
  split
  · rename_i hsome
    induction s with
    | nil => simp at hsome
    | cons a t ih =>
      obtain ⟨a1, a2⟩ := a
      by_cases hak : a1 = k
      · subst hak
        have hhead : (if ((a1 : String), a2).1 = a1 then (((a1 : String), a2).1, v) else (a1, a2)) = (a1, v) := by
          simp
        rw [List.map_cons, hhead]
        simp [List.lookup]
      · have hhead : (if ((a1 : String), a2).1 = k then (((a1 : String), a2).1, v) else (a1, a2)) = (a1, a2) := by
          simp [hak]
        rw [List.map_cons, hhead]
        have hk : (k == a1) = false := by
          simp
          exact fun he => hak he.symm
        simp only [List.lookup, hk] at hsome ⊢
        exact ih hsome
  · rename_i hnone
    induction s with
    | nil => simp [List.lookup]
    | cons a t ih =>
      have hk : (k == a.1) = false := by
        cases hkk : (k == a.1)
        · rfl
        · exfalso
          simp only [List.lookup, hkk] at hnone
          simp at hnone
      simp only [List.cons_append, List.lookup, hk] at hnone ⊢
      exact ih hnone

/-- Filtering with a predicate that keeps every entry of a key leaves that
lookup unchanged. -/
theorem lookup_filter_of_pred (s : Stats) (k : String) (p : String × Value → Bool)
    (hp : ∀ v, p (k, v) = true) :
    (s.filter p).lookup k = s.lookup k := by
  induction s with
  | nil => rfl
  | cons a t ih =>
    obtain ⟨a1, a2⟩ := a
    by_cases hak : k = a1
    · subst hak
      rw [List.filter_cons, hp a2]
      simp [List.lookup]
    · have hk : (k == a1) = false := by simpa using hak
      rw [List.filter_cons]
      cases hpa : p (a1, a2)
      · simp only [List.lookup, hk, cond_false]
        exact ih
      · simp only [List.lookup, hk, cond_true]
        exact ih

/-- A lookup succeeds exactly when the key occurs in the dict. -/
theorem lookup_isSome_iff {β : Type} (l : List (Char × β)) (c : Char) :
    (l.lookup c).isSome = true ↔ c ∈ l.map Prod.fst := by
  induction l with
  | nil => simp [List.lookup]
  | cons a t ih =>
    cases hc : (c == a.1)
    · have hne : c ≠ a.1 := by simpa using hc
      simp [List.lookup, hc, ih, hne]
    · have he : c = a.1 := by simpa using hc
      simp [List.lookup, hc, he]

/-- Counting lemma behind `contains_only`: for duplicate-free inputs, the
number of collection entries that are keys of the distribution reaches the
number of keys exactly when every key lies in the collection. -/
theorem filter_length_keys (d : CharDist) (cs : List Char)
    (hd : (d.map Prod.fst).Nodup) (hcs : cs.Nodup) :
    (cs.filter (fun c => (d.lookup c).isSome)).length = (d.map Prod.fst).length ↔
      ∀ c ∈ d.map Prod.fst, c ∈ cs := by
  classical
  set keys := d.map Prod.fst with hkeys
  have hfc : cs.filter (fun c => (d.lookup c).isSome) = cs.filter (fun c => decide (c ∈ keys)) := by
    apply List.filter_congr
    intro c _
    by_cases h : c ∈ keys
    · simp [h, (lookup_isSome_iff d c).mpr h]
    · have hns : ((d.lookup c).isSome) = false := by
        rw [← Bool.not_eq_true]
        intro hs
        exact h ((lookup_isSome_iff d c).mp hs)
      simp [h, hns]
  rw [hfc]
  have h1 : (cs.filter (fun c => decide (c ∈ keys))).length =
      ((cs.filter (fun c => decide (c ∈ keys))).toFinset).card := by
    rw [List.toFinset_card_of_nodup (List.Nodup.filter _ hcs)]
  have h2 : ((cs.filter (fun c => decide (c ∈ keys))).toFinset) =
      cs.toFinset ∩ keys.toFinset := by
    rw [List.toFinset_filter]
    ext x
    simp [List.mem_toFinset]
  have h3 : keys.length = keys.toFinset.card := by
    rw [List.toFinset_card_of_nodup hd]
  rw [h1, h2, h3]
  constructor
  · intro hcard c hc
    have hsub : cs.toFinset ∩ keys.toFinset ⊆ keys.toFinset := Finset.inter_subset_right
    have heq : cs.toFinset ∩ keys.toFinset = keys.toFinset :=
      Finset.eq_of_subset_of_card_le hsub (le_of_eq hcard.symm)
    have : keys.toFinset ⊆ cs.toFinset := Finset.inter_eq_right.mp heq
    have hx : c ∈ keys.toFinset := List.mem_toFinset.mpr hc
    exact List.mem_toFinset.mp (this hx)
  · intro hsub
    have : keys.toFinset ⊆ cs.toFinset := by
      intro x hx
      exact List.mem_toFinset.mpr (hsub x (List.mem_toFinset.mp hx))
    rw [Finset.inter_eq_right.mpr this]

/-- Claim C1 (amended): for every distribution and every duplicate-free
character collection, `contains_only` returns true iff every distinct
character of the distribution is a member of the collection.  The
duplicate-freeness proviso is forced by the counterexample: the countdown in
the source decrements once per collection entry, duplicates included. -/
theorem claim_C1_amended (d : CharDist) (cs : List Char)
    (hd : (d.map Prod.fst).Nodup) (hcs : cs.Nodup) :
    contains_only d cs = true ↔ ∀ c ∈ d.map Prod.fst, c ∈ cs := by
  unfold contains_only
  simp only [beq_iff_eq]
  rw [← filter_length_keys d cs hd hcs, List.length_map]
  omega

/-- Claim C1 counterexample: `Alphabet.RNA.all_chars` (a collection the
classifier passes to `contains_only` in `detect_sequence_type`) holds A, G
and C twice, so on the distribution of the single-character sequence A the
countdown overshoots: every distinct character is a member of the collection
yet `contains_only` answers false. -/
theorem claim_C1_cex :
    ¬ (contains_only [('A', 1)] Alphabet.RNA.all_chars = true ↔
        ∀ c ∈ ([('A', (1 : Nat))] : CharDist).map Prod.fst,
          c ∈ Alphabet.RNA.all_chars) := by
  decide

/-- Claim C1 witness: the amended theorem instantiated at the distribution
of A and the duplicate-free collection `Alphabet.DNA.all_chars`. -/
theorem claim_C1_witness :
    contains_only [('A', 1)] Alphabet.DNA.all_chars = true ↔
      ∀ c ∈ ([('A', (1 : Nat))] : CharDist).map Prod.fst,
        c ∈ Alphabet.DNA.all_chars :=
  claim_C1_amended [('A', 1)] Alphabet.DNA.all_chars (by decide) (by decide)

/-- Claim C2 (code divergence at the failing input): the record ACGU is
composed only of A, U, G, C, and every distinct character of its
distribution is a member of `Alphabet.RNA.all_chars`, yet `contains_only`
answers false there (the RNA ambiguous list of alphabet.py aliases the DNA
unambiguous list, duplicating A, G, C inside `Alphabet.RNA.all_chars`), so
the pipeline files the record under OTHER (unambiguous), not
RNA (unambiguous). -/
theorem claim_C2_code_divergence :
    processFile "f" [['A', 'C', 'G', 'U']] =
      Except.ok [("filename", Value.str "f"),
        ("sequences", Value.nat 1),
        ("type_counts", Value.counts [("OTHER (unambiguous)", 1)]),
        ("special_char_count", Value.nested [("OTHER (unambiguous)", [])]),
        ("ambiguous_char_count", Value.nested [("OTHER (unambiguous)", [])]),
        ("unknown_char_count", Value.nested [("OTHER (unambiguous)", [])])] ∧
    contains_only (distOf (upperSeq ['A', 'C', 'G', 'U'])) Alphabet.RNA.all_chars = false ∧
    (∀ c ∈ (distOf (upperSeq ['A', 'C', 'G', 'U'])).map Prod.fst,
      c ∈ Alphabet.RNA.all_chars) :=
  ⟨by rfl, by decide, by decide⟩

/-- Claim C3 counterexample: the end-to-end example as the claim states it
fails on the code: the type counts after processing ACGT, ACGU, ACGN and
XYZ* contain neither RNA (unambiguous) nor OTHER (ambiguous). -/
theorem claim_C3_cex : ¬ endToEndClaim := by
  unfold endToEndClaim
  decide

/-- Claim C3 (amended): processing the four example records yields
sequences = 4 and the type counts DNA (unambiguous), OTHER (unambiguous)
(for ACGU, by the RNA classification defect), DNA (ambiguous) and
AA (ambiguous,special) (for XYZ*, whose characters all lie in the AA
alphabet, which precedes OTHER), each 1. -/
theorem claim_C3_amended :
    processFile "f" endToEndRecords =
      Except.ok [("filename", Value.str "f"),
        ("sequences", Value.nat 4),
        ("type_counts", Value.counts
          [("DNA (unambiguous)", 1), ("OTHER (unambiguous)", 1),
           ("DNA (ambiguous)", 1), ("AA (ambiguous,special)", 1)]),
        ("special_char_count", Value.nested
          [("DNA (unambiguous)", []), ("OTHER (unambiguous)", []),
           ("DNA (ambiguous)", []), ("AA (ambiguous,special)", [('*', 1)])]),
        ("ambiguous_char_count", Value.nested
          [("DNA (unambiguous)", []), ("OTHER (unambiguous)", []),
           ("DNA (ambiguous)", [('N', 1)]),
           ("AA (ambiguous,special)", [('X', 1), ('Z', 1)])]),
        ("unknown_char_count", Value.nested
          [("DNA (unambiguous)", []), ("OTHER (unambiguous)", []),
           ("DNA (ambiguous)", []), ("AA (ambiguous,special)", [])])] := by
  rfl

/-- Claim C4 (code divergence at the failing inputs): O, X, Z and J lie in
the union of the unambiguous and ambiguous sets of DNA, RNA, AA and AA_NC,
but not in the unambiguous set the source builds for OTHER, which omits the
AA ambiguous characters and the AA_NC characters entirely. -/
theorem claim_C4_code_divergence :
    ('O' ∈ otherUnambiguousClaimed ∧ 'O' ∉ Alphabet.OTHER.unambiguous_chars) ∧
    ('X' ∈ otherUnambiguousClaimed ∧ 'X' ∉ Alphabet.OTHER.unambiguous_chars) ∧
    ('Z' ∈ otherUnambiguousClaimed ∧ 'Z' ∉ Alphabet.OTHER.unambiguous_chars) ∧
    ('J' ∈ otherUnambiguousClaimed ∧ 'J' ∉ Alphabet.OTHER.unambiguous_chars) := by
  decide

/-- Claim C5 counterexample: the three character sets are not pairwise
disjoint for every alphabet class: RNA holds A both as unambiguous and as
ambiguous (and OTHER holds B twice as well). -/
theorem claim_C5_cex : ¬ ∀ a ∈ alphabetMembers, pairwiseDisjointSets a := by
  simp only [alphabetMembers, pairwiseDisjointSets]
  decide

/-- Claim C5 (amended): DNA, AA and AA_NC have pairwise disjoint sets, and
in every class the special set is disjoint from the other two; but the
unambiguous and ambiguous sets overlap exactly on A, G, C for RNA and
exactly on B for OTHER. -/
theorem claim_C5_amended :
    pairwiseDisjointSets Alphabet.DNA ∧
    pairwiseDisjointSets Alphabet.AA ∧
    pairwiseDisjointSets Alphabet.AA_NC ∧
    (∀ a ∈ alphabetMembers,
      (∀ c ∈ a.unambiguous_chars, c ∉ a.special_chars) ∧
      (∀ c ∈ a.ambiguous_chars, c ∉ a.special_chars)) ∧
    Alphabet.RNA.unambiguous_chars.inter Alphabet.RNA.ambiguous_chars =
      ['A', 'G', 'C'] ∧
    Alphabet.OTHER.unambiguous_chars.inter Alphabet.OTHER.ambiguous_chars =
      ['B'] := by
  simp only [alphabetMembers, pairwiseDisjointSets]
  decide

/-- Claim C9: on the record whose only character is the dot, detection picks
OTHER with an empty flag set: the distribution is not within the OTHER
unambiguous set, no OTHER ambiguous or special character occurs, the sorted
join of the empty flag set is the empty string, and the category label is
OTHER followed by empty parentheses. -/
theorem claim_C9 :
    applyChecks (checks.take 6) ['.'] (initStats "f") =
      Except.ok [("filename", Value.str "f"),
        ("sequences", Value.nat 1),
        ("_character_distribution", Value.dist [('.', 1)]),
        ("_character_positions", Value.positions [('.', [0])]),
        ("_type", Value.alpha Alphabet.OTHER),
        ("_type_flags", Value.flags ⟨false, false, false⟩),
        ("_category_name", Value.str "OTHER ()")] ∧
    contains_only [('.', 1)] Alphabet.OTHER.unambiguous_chars = false ∧
    contains [('.', 1)] Alphabet.OTHER.ambiguous_chars = false ∧
    contains [('.', 1)] Alphabet.OTHER.special_chars = false ∧
    Flags.sortedJoin ⟨false, false, false⟩ = "" ∧
    typeCountsOf (okStats (processFile "f" [['.']])) = [("OTHER ()", 1)] :=
  ⟨by rfl, by decide, by decide, by decide, by rfl, by rfl⟩

/-- A pure `Except` computation succeeds with exactly its argument. -/
theorem except_pure_ok {ε α : Type} (a b : α) :
    (pure a : Except ε α) = Except.ok b ↔ a = b := by
  simp [pure, Except.pure]

/-- The purge filter leaves no key starting with the underscore marker. -/
theorem noTemp_filter (s : Stats) :
    noTempFields (s.filter (fun kv => !(startsWithUnderscore kv.1))) = true := by
  simp only [noTempFields, List.all_eq_true]
  intro kv hkv
  exact (List.mem_filter.mp hkv).2

/-- A successful run of the full check chain on one record ends with the
purge filter, so the resulting accumulator has no temporary field. -/
theorem processRecord_ok_noTemp (r : Rec) (s s' : Stats)
    (h : processRecord r s = Except.ok s') : noTempFields s' = true := by
  simp only [processRecord, applyChecks, checks, List.foldlM_cons,
    List.foldlM_nil] at h
  simp only [except_bind_ok, except_pure_ok] at h
  obtain ⟨s1, h1, s2, h2, s3, h3, s4, h4, s5, h5, s6, h6, s7, h7, s8, h8, s9,
    h9, s10, h10, s11, h11, hpure⟩ := h
  unfold clear_tempary_fields at h11
  injection h11 with h11
  rw [← hpure, ← h11]
  exact noTemp_filter s10

/-- Folding the check chain over any record list preserves absence of
temporary fields. -/
theorem foldProcess_noTemp (records : List Rec) (init s : Stats)
    (hinit : noTempFields init = true)
    (h : records.foldlM (fun s record => processRecord record s) init =
      Except.ok s) :
    noTempFields s = true := by
  induction records generalizing init with
  | nil =>
    rw [List.foldlM_nil] at h
    rw [← (except_pure_ok init s).mp h]
    exact hinit
  | cons r t ih =>
    rw [List.foldlM_cons] at h
    rw [except_bind_ok] at h
    obtain ⟨a, ha, hrest⟩ := h
    exact ih a (processRecord_ok_noTemp r init a ha) hrest

/-- Claim C7 counterexample: the purge does not run once after all records:
it is the last check of every record, so already after the first record of a
file the accumulator holds no transient character distribution, contrary to
the once-at-end reading. -/
theorem claim_C7_cex : ¬ purgeNotPerRecordClaim := by
  unfold purgeNotPerRecordClaim afterFirstRecord
  decide

/-- Claim C7 (amended): the purge check runs as the final check of every
record (not once per file), and consequently the accumulator of every
successfully processed file contains no field whose key begins with the
temporary-field marker. -/
theorem claim_C7_amended (filename : String) (records : List Rec) (s : Stats)
    (h : processFile filename records = Except.ok s) :
    noTempFields s = true := by
  unfold processFile at h
  exact foldProcess_noTemp records (initStats filename) s rfl h

/-- Claim C7 witness: the amended theorem instantiated at a one-record file
and its concrete final accumulator. -/
theorem claim_C7_witness :
    noTempFields [("filename", Value.str "f"),
      ("sequences", Value.nat 1),
      ("type_counts", Value.counts [("DNA (unambiguous)", 1)]),
      ("special_char_count", Value.nested [("DNA (unambiguous)", [])]),
      ("ambiguous_char_count", Value.nested [("DNA (unambiguous)", [])]),
      ("unknown_char_count", Value.nested [("DNA (unambiguous)", [])])] =
      true :=
  claim_C7_amended "f" [['A', 'C', 'G', 'T']] _ (by rfl)

/-- Running a check list is determined by the per-check behaviour on the two
records. -/
theorem applyChecks_congr (cs : List Check) (r r' : Rec)
    (h : ∀ c ∈ cs, ∀ s, c r s = c r' s) (s : Stats) :
    applyChecks cs r s = applyChecks cs r' s := by
  induction cs generalizing s with
  | nil => rfl
  | cons c t ih =>
    simp only [applyChecks, List.foldlM_cons]
    rw [h c (List.mem_cons_self c t) s]
    cases hc : c r' s with
    | error e => rfl
    | ok a => exact ih (fun c hc s => h c (List.mem_cons_of_mem _ hc) s) a

/-- Every check in the chain reads the record only through its upper-cased
character sequence. -/
theorem checks_record_congr (r r' : Rec) (h : upperSeq r = upperSeq r') :
    ∀ c ∈ checks, ∀ s, c r s = c r' s := by
  intro c hc s
  simp only [checks, List.mem_cons, List.not_mem_nil, or_false] at hc
  rcases hc with rfl | rfl | rfl | rfl | rfl | rfl | rfl | rfl | rfl | rfl | rfl
  · rfl
  · unfold compute_character_distribution
    rw [h]
  · unfold compute_character_positions
    rw [h]
  · rfl
  · rfl
  · rfl
  · rfl
  · rfl
  · rfl
  · rfl
  · rfl

/-- Claim C10: a record and its lower-cased variant produce identical
accumulator updates: every check reads the record only through the
upper-cased sequence, and upper-casing absorbs lower-casing. -/
theorem claim_C10 (record : Rec) (stats : Stats) :
    processRecord (record.map lower_char) stats = processRecord record stats := by
  unfold processRecord
  exact applyChecks_congr checks (record.map lower_char) record
    (checks_record_congr _ _ (upperSeq_map_lower record)) stats

/-- Claim C8: when the transient character-distribution field is absent the
detect-alphabet-class check fails with the assert message instead of
producing a result; when it is present the check succeeds and populates the
type field; and the next check likewise fails loudly when the type field it
depends on is absent. -/
theorem claim_C8 (record : Rec) (stats : Stats) :
    (getKey stats "_character_distribution" = none →
      detect_sequence_type record stats = Except.error
        "Sequence character distribution not availabe. It must be computed before this check.") ∧
    (∀ d, getKey stats "_character_distribution" = some (Value.dist d) →
      ∃ a, detect_sequence_type record stats =
        Except.ok (setKey stats "_type" (Value.alpha a))) ∧
    (getKey stats "_type" = none →
      ∀ d, getKey stats "_character_distribution" = some (Value.dist d) →
        detect_ambiguous_and_special_characters record stats = Except.error
          "Sequence type information not availabe. It must be computed before this check.") := by
  refine ⟨?_, ?_, ?_⟩
  · intro h
    have ha : assert_character_distribution_available stats = Except.error
        "Sequence character distribution not availabe. It must be computed before this check." := by
      unfold assert_character_distribution_available
      rw [h]
    unfold detect_sequence_type
    rw [ha]
    rfl
  · intro d h
    have ha : assert_character_distribution_available stats = Except.ok d := by
      unfold assert_character_distribution_available
      rw [h]
    unfold detect_sequence_type
    rw [ha]
    simp only [Bind.bind, Except.bind]
    split_ifs
    · exact ⟨Alphabet.DNA, rfl⟩
    · exact ⟨Alphabet.RNA, rfl⟩
    · exact ⟨Alphabet.AA, rfl⟩
    · exact ⟨Alphabet.OTHER, rfl⟩
  · intro ht d h
    have ha : assert_character_distribution_available stats = Except.ok d := by
      unfold assert_character_distribution_available
      rw [h]
    have hb : assert_sequence_type_available stats = Except.error
        "Sequence type information not availabe. It must be computed before this check." := by
      unfold assert_sequence_type_available
      rw [ht]
    unfold detect_ambiguous_and_special_characters
    rw [ha]
    simp only [Bind.bind, Except.bind]
    rw [hb]

/-- Claim C8 witness: the theorem instantiated at the empty accumulator and
at one holding only a character distribution. -/
theorem claim_C8_witness :
    detect_sequence_type [] [] = Except.error
      "Sequence character distribution not availabe. It must be computed before this check." ∧
    (∃ a, detect_sequence_type [] [("_character_distribution", Value.dist [('A', 1)])] =
      Except.ok (setKey [("_character_distribution", Value.dist [('A', 1)])]
        "_type" (Value.alpha a))) ∧
    detect_ambiguous_and_special_characters []
        [("_character_distribution", Value.dist [('A', 1)])] =
      Except.error
        "Sequence type information not availabe. It must be computed before this check." :=
  ⟨(claim_C8 [] []).1 rfl,
   (claim_C8 [] _).2.1 [('A', 1)] rfl,
   (claim_C8 [] _).2.2 rfl [('A', 1)] rfl⟩

/-- The lengths read off an accumulator depend only on the lengths field. -/
theorem lengthsOf_congr (s s' : Stats)
    (h : getKey s' "lengths" = getKey s "lengths") :
    lengthsOf s' = lengthsOf s := by
  unfold lengthsOf
  rw [h]

/-- The count check leaves the lengths field unchanged. -/
theorem count_preserves (r : Rec) (s s' : Stats)
    (h : count r s = Except.ok s') :
    getKey s' "lengths" = getKey s "lengths" := by
  unfold count at h
  split at h
  · injection h with h
    rw [← h]
    exact getKey_setKey_ne _ _ _ _ (by decide)
  · injection h with h
    rw [← h]
    exact getKey_setKey_ne _ _ _ _ (by decide)
  · exact Except.noConfusion h

/-- The distribution check leaves the lengths field unchanged. -/
theorem compute_character_distribution_preserves (r : Rec) (s s' : Stats)
    (h : compute_character_distribution r s = Except.ok s') :
    getKey s' "lengths" = getKey s "lengths" := by
  unfold compute_character_distribution at h
  injection h with h
  rw [← h]
  exact getKey_setKey_ne _ _ _ _ (by decide)

/-- The positions check leaves the lengths field unchanged. -/
theorem compute_character_positions_preserves (r : Rec) (s s' : Stats)
    (h : compute_character_positions r s = Except.ok s') :
    getKey s' "lengths" = getKey s "lengths" := by
  unfold compute_character_positions at h
  injection h with h
  rw [← h]
  exact getKey_setKey_ne _ _ _ _ (by decide)

/-- The class-detection check leaves the lengths field unchanged. -/
theorem detect_sequence_type_preserves (r : Rec) (s s' : Stats)
    (h : detect_sequence_type r s = Except.ok s') :
    getKey s' "lengths" = getKey s "lengths" := by
  unfold detect_sequence_type at h
  cases ha : assert_character_distribution_available s with
  | error e =>
    rw [ha] at h
    exact Except.noConfusion h
  | ok d =>
    rw [ha] at h
    simp only [Bind.bind, Except.bind] at h
    split_ifs at h <;>
      (injection h with h; rw [← h]; exact getKey_setKey_ne _ _ _ _ (by decide))

/-- The flag-detection check leaves the lengths field unchanged. -/
theorem detect_ambiguous_preserves (r : Rec) (s s' : Stats)
    (h : detect_ambiguous_and_special_characters r s = Except.ok s') :
    getKey s' "lengths" = getKey s "lengths" := by
  unfold detect_ambiguous_and_special_characters at h
  cases ha : assert_character_distribution_available s with
  | error e =>
    rw [ha] at h
    exact Except.noConfusion h
  | ok d =>
    rw [ha] at h
    cases hb : assert_sequence_type_available s with
    | error e =>
      rw [hb] at h
      exact Except.noConfusion h
    | ok a =>
      rw [hb] at h
      simp only [Bind.bind, Except.bind] at h
      injection h with h
      rw [← h]
      exact getKey_setKey_ne _ _ _ _ (by decide)

/-- The label check leaves the lengths field unchanged. -/
theorem set_category_name_preserves (r : Rec) (s s' : Stats)
    (h : set_sequence_category_name r s = Except.ok s') :
    getKey s' "lengths" = getKey s "lengths" := by
  unfold set_sequence_category_name at h
  cases ha : assert_sequence_type_available s with
  | error e =>
    rw [ha] at h
    exact Except.noConfusion h
  | ok a =>
    rw [ha] at h
    cases hb : assert_sequence_type_flags_available s with
    | error e =>
      rw [hb] at h
      exact Except.noConfusion h
    | ok f =>
      rw [hb] at h
      simp only [Bind.bind, Except.bind] at h
      injection h with h
      rw [← h]
      exact getKey_setKey_ne _ _ _ _ (by decide)

/-- The type-count check leaves the lengths field unchanged. -/
theorem count_sequence_types_preserves (r : Rec) (s s' : Stats)
    (h : count_sequence_types r s = Except.ok s') :
    getKey s' "lengths" = getKey s "lengths" := by
  unfold count_sequence_types at h
  cases ha : assert_sequence_type_available s with
  | error e =>
    rw [ha] at h
    exact Except.noConfusion h
  | ok a =>
    rw [ha] at h
    cases hb : assert_sequence_type_flags_available s with
    | error e =>
      rw [hb] at h
      exact Except.noConfusion h
    | ok f =>
      rw [hb] at h
      cases hc : assert_sequence_category_name_available s with
      | error e =>
        rw [hc] at h
        exact Except.noConfusion h
      | ok ty =>
        rw [hc] at h
        simp only [Bind.bind, Except.bind] at h
        split at h
        all_goals
          first
          | exact Except.noConfusion h
          | (injection h with h
             rw [← h]
             exact getKey_setKey_ne _ _ _ _ (by decide))

/-- The nested tally helper writes only its own field, leaving the lengths
field unchanged. -/
theorem countHelper_preserves (s : Stats) (fieldname : String)
    (chars : List Char) (s' : Stats) (hne : ("lengths" : String) ≠ fieldname)
    (h : countHelper s fieldname chars = Except.ok s') :
    getKey s' "lengths" = getKey s "lengths" := by
  unfold countHelper at h
  cases ha : assert_sequence_category_name_available s with
  | error e =>
    rw [ha] at h
    exact Except.noConfusion h
  | ok cat =>
    rw [ha] at h
    cases hb : assert_character_distribution_available s with
    | error e =>
      rw [hb] at h
      exact Except.noConfusion h
    | ok cd =>
      rw [hb] at h
      simp only [Bind.bind, Except.bind] at h
      split at h
      all_goals
        first
        | exact Except.noConfusion h
        | (injection h with h
           rw [← h]
           exact getKey_setKey_ne _ _ _ _ hne)

/-- The special-character tally leaves the lengths field unchanged. -/
theorem count_special_preserves (r : Rec) (s s' : Stats)
    (h : count_sequences_with_special_characters r s = Except.ok s') :
    getKey s' "lengths" = getKey s "lengths" := by
  unfold count_sequences_with_special_characters at h
  cases ha : assert_sequence_type_available s with
  | error e =>
    rw [ha] at h
    exact Except.noConfusion h
  | ok a =>
    rw [ha] at h
    simp only [Bind.bind, Except.bind] at h
    exact countHelper_preserves s "special_char_count" a.special_chars s'
      (by decide) h

/-- The ambiguous-character tally leaves the lengths field unchanged. -/
theorem count_ambiguous_preserves (r : Rec) (s s' : Stats)
    (h : count_sequences_with_ambiguous_characters r s = Except.ok s') :
    getKey s' "lengths" = getKey s "lengths" := by
  unfold count_sequences_with_ambiguous_characters at h
  cases ha : assert_sequence_type_available s with
  | error e =>
    rw [ha] at h
    exact Except.noConfusion h
  | ok a =>
    rw [ha] at h
    simp only [Bind.bind, Except.bind] at h
    exact countHelper_preserves s "ambiguous_char_count" a.ambiguous_chars s'
      (by decide) h

/-- The unknown-character tally leaves the lengths field unchanged. -/
theorem count_unknown_preserves (r : Rec) (s s' : Stats)
    (h : count_sequences_with_unknown_characters r s = Except.ok s') :
    getKey s' "lengths" = getKey s "lengths" := by
  unfold count_sequences_with_unknown_characters at h
  cases ha : assert_sequence_category_name_available s with
  | error e =>
    rw [ha] at h
    exact Except.noConfusion h
  | ok cat =>
    rw [ha] at h
    cases hb : assert_sequence_type_available s with
    | error e =>
      rw [hb] at h
      exact Except.noConfusion h
    | ok a =>
      rw [hb] at h
      cases hc : assert_character_distribution_available s with
      | error e =>
        rw [hc] at h
        exact Except.noConfusion h
      | ok cd =>
        rw [hc] at h
        simp only [Bind.bind, Except.bind] at h
        split at h
        all_goals
          first
          | exact Except.noConfusion h
          | (injection h with h
             rw [← h]
             exact getKey_setKey_ne _ _ _ _ (by decide))

/-- The purge keeps the lengths field, whose key lacks the underscore
marker. -/
theorem clear_preserves (r : Rec) (s s' : Stats)
    (h : clear_tempary_fields r s = Except.ok s') :
    getKey s' "lengths" = getKey s "lengths" := by
  unfold clear_tempary_fields at h
  injection h with h
  rw [← h]
  exact lookup_filter_of_pred s "lengths" _ (fun v => rfl)

/-- The collect-length check appends exactly the record length to the
lengths field. -/
theorem collect_length_step (r : Rec) (s s' : Stats)
    (h : collect_length r s = Except.ok s') :
    lengthsOf s' = lengthsOf s ++ [r.length] := by
  unfold collect_length at h
  split at h
  · rename_i hnone
    injection h with h
    rw [← h]
    unfold lengthsOf
    rw [hnone]
    show (match getKey (setKey s "lengths" (Value.natList [r.length])) "lengths" with
      | some (Value.natList l) => l
      | _ => []) = [] ++ [r.length]
    rw [show getKey (setKey s "lengths" (Value.natList [r.length])) "lengths" =
      some (Value.natList [r.length]) from lookup_setKey_self s "lengths" _]
    rfl
  · rename_i l hsome
    injection h with h
    rw [← h]
    unfold lengthsOf
    rw [hsome]
    rw [show getKey (setKey s "lengths" (Value.natList (l ++ [r.length])))
        "lengths" = some (Value.natList (l ++ [r.length])) from
      lookup_setKey_self s "lengths" _]
  · exact Except.noConfusion h

/-- One record processed by the chain with the collect-length step appends
exactly its length to the lengths field. -/
theorem processRecordWithLength_lengths (r : Rec) (s s' : Stats)
    (h : applyChecks checksWithLength r s = Except.ok s') :
    lengthsOf s' = lengthsOf s ++ [r.length] := by
  simp only [applyChecks, checksWithLength, List.foldlM_cons,
    List.foldlM_nil] at h
  simp only [except_bind_ok, except_pure_ok] at h
  obtain ⟨s1, h1, s2, h2, s3, h3, s4, h4, s5, h5, s6, h6, s7, h7, s8, h8, s9,
    h9, s10, h10, s11, h11, s12, h12, hp⟩ := h
  subst hp
  have e1 := count_preserves r s s1 h1
  have L2 := collect_length_step r s1 s2 h2
  have e3 := compute_character_distribution_preserves r s2 s3 h3
  have e4 := compute_character_positions_preserves r s3 s4 h4
  have e5 := detect_sequence_type_preserves r s4 s5 h5
  have e6 := detect_ambiguous_preserves r s5 s6 h6
  have e7 := set_category_name_preserves r s6 s7 h7
  have e8 := count_sequence_types_preserves r s7 s8 h8
  have e9 := count_special_preserves r s8 s9 h9
  have e10 := count_ambiguous_preserves r s9 s10 h10
  have e11 := count_unknown_preserves r s10 s11 h11
  have e12 := clear_preserves r s11 s12 h12
  have gfin : getKey s12 "lengths" = getKey s2 "lengths" := by
    rw [e12, e11, e10, e9, e8, e7, e6, e5, e4, e3]
  rw [lengthsOf_congr _ _ gfin, L2, lengthsOf_congr _ _ e1]

/-- Folding the chain with the collect-length step over a record list
appends the record lengths in order. -/
theorem foldLength (records : List Rec) (init s : Stats)
    (h : records.foldlM
      (fun s record => applyChecks checksWithLength record s) init =
      Except.ok s) :
    lengthsOf s = lengthsOf init ++ records.map List.length := by
  induction records generalizing init with
  | nil =>
    rw [List.foldlM_nil] at h
    rw [← (except_pure_ok init s).mp h]
    simp
  | cons r t ih =>
    rw [List.foldlM_cons, except_bind_ok] at h
    obtain ⟨a, ha, hrest⟩ := h
    rw [ih a hrest, processRecordWithLength_lengths r init a ha]
    simp

/-- Claim C6: after the pipeline with the spec-modelled collect-length step
processes a file, the lengths field holds one entry per record, in record
order, each the length of the sequence of that record. -/
theorem claim_C6 (filename : String) (records : List Rec) (s : Stats)
    (h : processFileWithLength filename records = Except.ok s) :
    lengthsOf s = records.map List.length := by
  unfold processFileWithLength at h
  have hf := foldLength records (initStats filename) s h
  rwa [show lengthsOf (initStats filename) = [] from rfl,
    List.nil_append] at hf

/-- Claim C6 witness: the theorem instantiated at a concrete two-record
file. -/
theorem claim_C6_witness :
    lengthsOf [("filename", Value.str "f"), ("sequences", Value.nat 2),
      ("lengths", Value.natList [4, 2]),
      ("type_counts", Value.counts [("DNA (unambiguous)", 2)]),
      ("special_char_count", Value.nested [("DNA (unambiguous)", [])]),
      ("ambiguous_char_count", Value.nested [("DNA (unambiguous)", [])]),
      ("unknown_char_count", Value.nested [("DNA (unambiguous)", [])])] =
      List.map List.length [['A', 'C', 'G', 'T'], ['A', 'C']] :=
  claim_C6 "f" [['A', 'C', 'G', 'T'], ['A', 'C']] _ (by rfl)
